import Mathlib

/-!
Shallow embedding of `scripts/x_search.py` (HealthTweets): query construction,
time-window normalization, per-post record normalization and the paginated
retrieval driver, together with proofs of the specified properties.

Conventions of the embedding:
* Python `Optional`/missing-dict-key values become `Option`.
* Python truthiness on strings/lists (`if lang:`, `if hashtags:`, `or []`)
  is modelled explicitly: the empty string and the empty list are falsy.
* The external API's `public_metrics` fields are engagement counts, modelled
  as `Nat` (the interface delivers non-negative counts).
* The paginator is modelled as the list of outcomes of its successive page
  fetches: each element is either a fetched raw page or a raised error
  (`tweepy.TooManyRequests`, `tweepy.BadRequest`, or any other exception).
-/

namespace HealthTweets

/-- Normalized output record, mirroring the `TweetRecord` dataclass. -/
structure TweetRecord where
  id : String
  date : String
  user_username : String
  user_displayname : String
  content : String
  like_count : Nat
  retweet_count : Nat
  reply_count : Nat
  quote_count : Nat
  lang : Option String
  url : String
  external_urls : Option String
  is_retweet : Bool
  is_quote : Bool
  is_reply : Bool
  referenced_tweet_id : Option String
  referenced_tweet_text : Option String
deriving DecidableEq

/-- Author info held in the per-page user map (`map_users` values). -/
structure UserInfo where
  username : String
  name : String
deriving DecidableEq

/-- Raw user object from `includes["users"]`: `id` is present, `username` and
`name` are read with `u.get(..., "")`. -/
structure RawUser where
  uid : String
  username : Option String
  name : Option String

/-- Raw tweet object from `includes["tweets"]`: fields read via `.get`. -/
structure IncludedTweet where
  tid : Option String
  text : Option String

/-- One element of a post's `referenced_tweets` list (fields via `.get`). -/
structure RefRel where
  rtype : Option String
  rid : Option String

/-- One element of `entities["urls"]` (fields via `.get`). -/
structure UrlEntity where
  expanded_url : Option String
  url : Option String

/-- Raw `public_metrics` block; each count may be absent. -/
structure PublicMetrics where
  like_count : Option Nat
  retweet_count : Option Nat
  reply_count : Option Nat
  quote_count : Option Nat

/-- Raw post as consumed by the driver loop (`t` in `search_tweets`):
`id`, `created_at`, `text` are always delivered by the API; the rest is
read through permissive lookups. -/
structure RawTweet where
  id : String
  created_at : String
  text : String
  lang : Option String
  author_id : Option String
  public_metrics : Option PublicMetrics
  entities_urls : Option (List UrlEntity)
  referenced_tweets : Option (List RefRel)

/-- One API page: `page.data` (may be `None`) plus the two includes
side-tables. -/
structure RawPage where
  data : Option (List RawTweet)
  includes_users : Option (List RawUser)
  includes_tweets : Option (List IncludedTweet)

/-- Error categories raised by the transport, matching the three `except`
arms of `search_tweets`. -/
inductive FetchError where
  | tooManyRequests
  | badRequest
  | otherError
deriving DecidableEq

/-- Outcome of one paginator step: a fetched page, or a raised error. -/
inductive PageResult where
  | page (p : RawPage)
  | fetchFail (e : FetchError)

/-- Embeds `ymd_to_rfc3339`: f-string concatenation of the date with the
start-of-day or end-of-day time suffix. -/
def ymd_to_rfc3339 (date_ymd : String) (end_of_day : Bool) : String :=
  if end_of_day then date_ymd ++ "T23:59:59Z" else date_ymd ++ "T00:00:00Z"

/-- Embeds `build_query`. Python truthiness: `if hashtags:` is false for the
empty list, `if lang:` is false for `None` and for the empty string. -/
def build_query (hashtags : List String) (lang : Option String) : String :=
  let terms : List String :=
    (if hashtags ≠ [] then ["(" ++ String.intercalate " OR " hashtags ++ ")"] else [])
    ++ (match lang with
        | some l => if l ≠ "" then ["lang:" ++ l] else []
        | none => [])
  if terms ≠ [] then String.intercalate " " terms else "*"

/-- Embeds `map_users`: builds the `user_map` dict from `includes["users"]`,
keyed by user id, with `.get` defaults of `""`. -/
def map_users (includes_users : Option (List RawUser)) : List (String × UserInfo) :=
  match includes_users with
  | none => []
  | some us => us.map (fun u => (u.uid, ⟨u.username.getD "", u.name.getD ""⟩))

/-- Lookup in an insertion-ordered association list with Python-dict
semantics: a later insertion of the same key overrides an earlier one, so the
last binding wins. -/
def dict_get {α : Type} (m : List (String × α)) (k : String) : Option α :=
  List.lookup k m.reverse

/-- Embeds the `referenced_tweets_map` construction: for each included tweet,
`ref_id = str(it.get("id"))` (Python's `str(None)` is the truthy string
`"None"`), and the entry is inserted only `if ref_id:`. -/
def map_referenced (includes_tweets : Option (List IncludedTweet)) :
    List (String × IncludedTweet) :=
  match includes_tweets with
  | none => []
  | some its => its.filterMap (fun it =>
      let ref_id := match it.tid with | some s => s | none => "None"
      if ref_id = "" then none else some (ref_id, it))

/-- Embeds Python `a or b` on optional strings under the truthiness filter of
the URL comprehension: yields the first truthy (present and non-empty)
operand, or nothing. -/
def py_or_str (a b : Option String) : Option String :=
  match a with
  | some s =>
      if s ≠ "" then some s
      else match b with
           | some t => if t ≠ "" then some t else none
           | none => none
  | none =>
      match b with
      | some t => if t ≠ "" then some t else none
      | none => none

/-- Embeds the body of the per-post loop of `search_tweets` (the construction
of one `TweetRecord` from a raw post and the current page's reconciliation
tables). -/
def normalize_tweet (t : RawTweet) (users_by_id : List (String × UserInfo))
    (referenced_tweets_map : List (String × IncludedTweet)) : TweetRecord :=
  let metrics := t.public_metrics.getD ⟨none, none, none, none⟩
  let user := (t.author_id.bind (fun a => dict_get users_by_id a)).getD ⟨"", ""⟩
  let urls_entity := t.entities_urls.getD []
  let expanded_urls := urls_entity.filterMap (fun u => py_or_str u.expanded_url u.url)
  let referenced_list := t.referenced_tweets.getD []
  let first_ref_id : Option String :=
    match referenced_list with
    | [] => none
    | r :: _ =>
        match r.rid with
        | some i => if i = "" then none else some i
        | none => none
  let first_ref_text : Option String :=
    match first_ref_id with
    | some i => (dict_get referenced_tweets_map i).bind (fun it => it.text)
    | none => none
  { id := t.id
    date := t.created_at
    user_username := user.username
    user_displayname := user.name
    content := t.text
    like_count := metrics.like_count.getD 0
    retweet_count := metrics.retweet_count.getD 0
    reply_count := metrics.reply_count.getD 0
    quote_count := metrics.quote_count.getD 0
    lang := t.lang
    url := "https://x.com/i/web/status/" ++ t.id
    external_urls :=
      if expanded_urls ≠ [] then some (String.intercalate " " expanded_urls) else none
    is_retweet := referenced_list.any (fun r => r.rtype == some "retweeted")
    is_quote := referenced_list.any (fun r => r.rtype == some "quoted")
    is_reply := referenced_list.any (fun r => r.rtype == some "replied_to")
    referenced_tweet_id := first_ref_id
    referenced_tweet_text := first_ref_text }

/-- Embeds the truthy limit test `if limit and fetched >= limit:` of the
driver: `limit` is `Optional[int]`, `None` and `0` are falsy. -/
def limit_hit (limit : Option Int) (fetched : Nat) : Bool :=
  match limit with
  | none => false
  | some n => decide (n ≠ 0) && decide (n ≤ (fetched : Int))

/-- Embeds the inner `for t in page.data or []:` loop: appends one record per
post, counts it, and returns early (third component `true`) as soon as the
limit is hit. -/
def process_posts (ts : List RawTweet) (users_by_id : List (String × UserInfo))
    (referenced_tweets_map : List (String × IncludedTweet)) (limit : Option Int)
    (fetched : Nat) (rows : List TweetRecord) : List TweetRecord × Nat × Bool :=
  match ts with
  | [] => (rows, fetched, false)
  | t :: rest =>
      let rows1 := rows ++ [normalize_tweet t users_by_id referenced_tweets_map]
      let fetched1 := fetched + 1
      if limit_hit limit fetched1 then (rows1, fetched1, true)
      else process_posts rest users_by_id referenced_tweets_map limit fetched1 rows1

/-- Embeds the outer `for page in tqdm(paginator):` loop together with the
three `except` arms: an error outcome ends the run with the rows accumulated
so far; an early return from the inner loop returns immediately; otherwise
the post-page limit check may `break`. -/
def run_pages (pages : List PageResult) (limit : Option Int) (fetched : Nat)
    (rows : List TweetRecord) : List TweetRecord :=
  match pages with
  | [] => rows
  | .fetchFail _ :: _ => rows
  | .page p :: rest =>
      let users_by_id := map_users p.includes_users
      let referenced_tweets_map := map_referenced p.includes_tweets
      match process_posts (p.data.getD []) users_by_id referenced_tweets_map limit fetched rows with
      | (rows1, _, true) => rows1
      | (rows1, fetched1, false) =>
          if limit_hit limit fetched1 then rows1
          else run_pages rest limit fetched1 rows1

/-- Embeds `search_tweets`: runs the paginator outcomes from an empty
accumulator and zero fetched count. -/
def search_tweets (pages : List PageResult) (limit : Option Int) : List TweetRecord :=
  run_pages pages limit 0 []

/-- Records produced from one page: every post of `page.data or []`
normalized against that page's reconciliation tables. -/
def page_records (p : RawPage) : List TweetRecord :=
  (p.data.getD []).map
    (fun t => normalize_tweet t (map_users p.includes_users) (map_referenced p.includes_tweets))

/-- Records produced from a list of pages, in page/post source order. -/
def all_records (pgs : List RawPage) : List TweetRecord :=
  (pgs.map page_records).flatten

/-- Total number of posts carried by a list of pages. -/
def total_posts (pgs : List RawPage) : Nat :=
  (pgs.map (fun p => (p.data.getD []).length)).sum

/-- Current UTC moment as observed by `main`: its calendar date rendered as
`YYYY-MM-DD` (`strftime("%Y-%m-%d")`) and the same instant in whole seconds
since the epoch (`strftime` truncating to seconds). -/
structure NowClock where
  ymd : String
  epochSec : Int

/-- End bound computed by `main`: absent, clamped to an instant strictly in
the past (formatted from `now - timedelta(seconds=20)`), or the rendered end
of a calendar day. -/
inductive EndBound where
  | noBound
  | clamped (epochSec : Int)
  | endOfDay (rfc : String)
deriving DecidableEq

/-- Embeds `main`'s start-time computation:
`start_time = ymd_to_rfc3339(args.since) if args.since else None`. -/
def compute_start_time (since : Option String) : Option String :=
  since.map (fun d => ymd_to_rfc3339 d false)

/-- Embeds `main`'s end-time computation: when `until` equals today's UTC
date the bound is the current instant minus 20 seconds, otherwise it is
`ymd_to_rfc3339(until, end_of_day=True)`. -/
def compute_end_time (untilDate : Option String) (now : NowClock) : EndBound :=
  match untilDate with
  | none => .noBound
  | some u =>
      if u = now.ymd then .clamped (now.epochSec - 20)
      else .endOfDay (ymd_to_rfc3339 u true)

/-- Embeds `re.sub(c+, r, ·)` for a single-character pattern `c`: every
maximal non-empty run of `c` is replaced by the single character `r`. -/
def collapse_runs (c r : Char) : List Char → List Char
  | [] => []
  | [x] => [if x = c then r else x]
  | x :: y :: xs =>
      if x = c ∧ y = c then collapse_runs c r (y :: xs)
      else (if x = c then r else x) :: collapse_runs c r (y :: xs)

/-- Whitespace class of Python `str.strip()` (ASCII whitespace characters;
the exotic Unicode space characters Python also strips play no role here). -/
def py_ws (ch : Char) : Bool :=
  ch = ' ' || ch = '\t' || ch = '\n' || ch = '\r' || ch = '\x0b' || ch = '\x0c'

/-- Embeds Python `str.strip()`: drop leading and trailing whitespace. -/
def py_strip (l : List Char) : List Char :=
  ((l.dropWhile py_ws).reverse.dropWhile py_ws).reverse

/-- Character-level pipeline of `clean_text_for_csv` on a non-empty string:
`re.sub(r'\n+', ' ', ·)`, then `re.sub(r' +', ' ', ·)`, then `.strip()`. -/
def clean_chars (l : List Char) : List Char :=
  py_strip (collapse_runs ' ' ' ' (collapse_runs '\n' ' ' l))

/-- Embeds `clean_text_for_csv`, including the leading truthiness guard
`if not text: return text` (both `None` and `""` are returned unchanged). -/
def clean_text_for_csv : Option String → Option String
  | none => none
  | some s => if s = "" then some "" else some (String.mk (clean_chars s.data))

/-- Decides that no two adjacent characters of the list both equal `c`. -/
def no_double (c : Char) : List Char → Bool
  | x :: y :: xs => (!(x == c && y == c)) && no_double c (y :: xs)
  | _ => true

/-! ### Concrete fixtures used by counterexamples and witnesses -/

/-- Minimal raw post with identifier `"1"`. -/
def samplePost : RawTweet :=
  { id := "1"
    created_at := "2024-01-01"
    text := "hola"
    lang := none
    author_id := none
    public_metrics := none
    entities_urls := none
    referenced_tweets := none }

/-- Second minimal raw post with identifier `"2"`. -/
def samplePost2 : RawTweet := { samplePost with id := "2" }

/-- Page carrying exactly the post with id `"1"`. -/
def samplePage : RawPage :=
  { data := some [samplePost], includes_users := none, includes_tweets := none }

/-- Page carrying the two posts with ids `"1"` and `"2"`. -/
def samplePage2 : RawPage :=
  { data := some [samplePost, samplePost2], includes_users := none, includes_tweets := none }

/-- Post carrying both a quoted and a replied-to relation. -/
def quoteReplyPost : RawTweet :=
  { samplePost with
    referenced_tweets := some [⟨some "quoted", some "9"⟩, ⟨some "replied_to", some "8"⟩] }

/-! ### Lemmas about the pagination driver -/

theorem limit_hit_none (f : Nat) : limit_hit none f = false := rfl

theorem limit_hit_zero (f : Nat) : limit_hit (some 0) f = false := by
  simp [limit_hit]

theorem all_records_cons (p : RawPage) (pgs : List RawPage) :
    all_records (p :: pgs) = page_records p ++ all_records pgs := by
  simp [all_records]

theorem process_posts_no_hit (u : List (String × UserInfo))
    (r : List (String × IncludedTweet)) (limit : Option Int)
    (h : ∀ k, limit_hit limit k = false) :
    ∀ (ts : List RawTweet) (f : Nat) (rows : List TweetRecord),
      process_posts ts u r limit f rows =
        (rows ++ ts.map (fun t => normalize_tweet t u r), f + ts.length, false) := by
  intro ts
  induction ts with
  | nil => intro f rows; simp [process_posts]
  | cons t rest ih =>
      intro f rows
      simp only [process_posts, h, ih, List.map_cons, List.length_cons]
      simp only [if_neg (by simp : ¬ (false = true)), Prod.mk.injEq, List.append_assoc,
        List.singleton_append, and_true, true_and]
      omega

theorem run_pages_no_hit (limit : Option Int) (h : ∀ k, limit_hit limit k = false) :
    ∀ (pgs : List RawPage) (f : Nat) (rows : List TweetRecord),
      run_pages (pgs.map .page) limit f rows = rows ++ all_records pgs := by
  intro pgs
  induction pgs with
  | nil => intro f rows; simp [run_pages, all_records]
  | cons p rest ih =>
      intro f rows
      simp only [List.map_cons, run_pages, process_posts_no_hit _ _ _ h, h, if_false, ih,
        all_records_cons, page_records]
      simp [List.append_assoc]

theorem run_pages_error_prefix :
    ∀ (pgs : List RawPage) (e : FetchError) (rest : List PageResult) (limit : Option Int)
      (f : Nat) (rows : List TweetRecord),
      run_pages (pgs.map .page ++ .fetchFail e :: rest) limit f rows =
        run_pages (pgs.map .page) limit f rows := by
  intro pgs
  induction pgs with
  | nil => intro e rest limit f rows; simp [run_pages]
  | cons p ps ih =>
      intro e rest limit f rows
      simp only [List.map_cons, List.cons_append, run_pages]
      rcases hp : process_posts (p.data.getD []) (map_users p.includes_users)
          (map_referenced p.includes_tweets) limit f rows with ⟨rows1, f1, hit⟩
      cases hit
      · by_cases hl : limit_hit limit f1 = true <;> simp [hl, ih]
      · simp

theorem limit_hit_cast (k m : Nat) (hk : 0 < k) :
    limit_hit (some (k : Int)) m = decide (k ≤ m) := by
  have h1 : ¬ ((k : Int) = 0) := by exact_mod_cast hk.ne'
  have h2 : ((k : Int) ≤ (m : Int)) ↔ k ≤ m := Int.ofNat_le
  simp [limit_hit, h1, decide_eq_decide.mpr h2]

theorem process_posts_limited (u : List (String × UserInfo))
    (r : List (String × IncludedTweet)) (k : Nat) (hk : 0 < k) :
    ∀ (ts : List RawTweet) (f : Nat), f < k → ∀ rows : List TweetRecord,
      process_posts ts u r (some (k : Int)) f rows =
        (rows ++ (ts.map (fun t => normalize_tweet t u r)).take (k - f),
         min (f + ts.length) k,
         decide (k ≤ f + ts.length)) := by
  intro ts
  induction ts with
  | nil =>
      intro f hf rows
      have hmin : min f k = f := by omega
      have hd : decide (k ≤ f) = false := decide_eq_false (by omega)
      simp only [process_posts, List.map_nil, List.take_nil, List.append_nil,
        List.length_nil, Nat.add_zero, hmin, hd]
  | cons t rest ih =>
      intro f hf rows
      simp only [process_posts, limit_hit_cast _ _ hk, List.map_cons, List.length_cons]
      by_cases hk1 : k ≤ f + 1
      · have hkf : k - f = 0 + 1 := by omega
        have hmin2 : min (f + (rest.length + 1)) k = f + 1 := by omega
        have hd2 : decide (k ≤ f + (rest.length + 1)) = true := decide_eq_true (by omega)
        rw [decide_eq_true hk1, if_pos rfl, hkf, List.take_succ_cons, List.take_zero,
          hmin2, hd2]
      · have hf1 : f + 1 < k := by omega
        have hkf : k - f = (k - (f + 1)) + 1 := by omega
        have e3 : f + 1 + rest.length = f + (rest.length + 1) := by omega
        rw [decide_eq_false hk1, if_neg (by simp), ih (f + 1) hf1, hkf,
          List.take_succ_cons, e3]
        simp [List.append_assoc]

theorem run_pages_cons_eq (p : RawPage) (rest : List PageResult) (limit : Option Int)
    (f : Nat) (rows rows1 : List TweetRecord) (f1 : Nat) (hit : Bool)
    (h : process_posts (p.data.getD []) (map_users p.includes_users)
          (map_referenced p.includes_tweets) limit f rows = (rows1, f1, hit)) :
    run_pages (.page p :: rest) limit f rows =
      if hit then rows1
      else if limit_hit limit f1 then rows1 else run_pages rest limit f1 rows1 := by
  simp only [run_pages, h]
  cases hit <;> simp

theorem run_pages_limited (k : Nat) (hk : 0 < k) :
    ∀ (pgs : List RawPage) (f : Nat), f < k → ∀ rows : List TweetRecord,
      run_pages (pgs.map .page) (some (k : Int)) f rows =
        rows ++ (all_records pgs).take (k - f) := by
  intro pgs
  induction pgs with
  | nil => intro f hf rows; simp [run_pages, all_records]
  | cons p ps ih =>
      intro f hf rows
      have hstep := run_pages_cons_eq p (ps.map .page) (some (k : Int)) f rows _ _ _
        (process_posts_limited _ _ k hk (p.data.getD []) f hf rows)
      set L := (p.data.getD []).map
        (fun t => normalize_tweet t (map_users p.includes_users)
          (map_referenced p.includes_tweets)) with hL
      have hPR : page_records p = L := by rw [page_records]
      have hlen : L.length = (p.data.getD []).length := by simp [hL]
      rw [List.map_cons, hstep, all_records_cons, hPR, List.take_append_eq_append_take]
      by_cases hcap : k ≤ f + (p.data.getD []).length
      · rw [decide_eq_true hcap, if_pos rfl]
        have h0 : k - f - L.length = 0 := by omega
        rw [h0, List.take_zero, List.append_nil]
      · have hlt : f + (p.data.getD []).length < k := by omega
        rw [decide_eq_false hcap, if_neg (by simp)]
        have hmin : min (f + (p.data.getD []).length) k = f + (p.data.getD []).length := by
          omega
        rw [hmin, limit_hit_cast _ _ hk, decide_eq_false hcap, if_neg (by simp),
          ih (f + (p.data.getD []).length) hlt]
        have htake : L.take (k - f) = L := List.take_of_length_le (by omega)
        have harith : k - f - L.length = k - (f + (p.data.getD []).length) := by omega
        rw [htake, harith, List.append_assoc]

theorem normalize_tweet_id (t : RawTweet) (u : List (String × UserInfo))
    (r : List (String × IncludedTweet)) : (normalize_tweet t u r).id = t.id := rfl

theorem all_records_length (pgs : List RawPage) :
    (all_records pgs).length = total_posts pgs := by
  simp [all_records, total_posts, List.length_flatten, page_records,
    Function.comp_def]

/-! ### Claim theorems: pagination driver -/

/-- C1: an API error (rate limit, bad request, or anything else) raised at
any page boundary makes the driver return exactly the records accumulated
from the error-free page prefix, in order; a failing first call yields the
empty list, and a rate-limited second page call yields exactly the first
page's records. -/
theorem C1_errors_return_accumulated_records :
    (∀ (pgs : List RawPage) (e : FetchError) (rest : List PageResult) (limit : Option Int),
        search_tweets (pgs.map .page ++ .fetchFail e :: rest) limit =
          search_tweets (pgs.map .page) limit) ∧
    (∀ (e : FetchError) (rest : List PageResult) (limit : Option Int),
        search_tweets (.fetchFail e :: rest) limit = []) ∧
    (∀ p : RawPage,
        search_tweets [.page p, .fetchFail .tooManyRequests] none = page_records p) := by
  refine ⟨?_, ?_, ?_⟩
  · intro pgs e rest limit
    simp only [search_tweets, run_pages_error_prefix]
  · intro e rest limit
    simp [search_tweets, run_pages]
  · intro p
    have h := run_pages_error_prefix [p] .tooManyRequests [] none 0 []
    simp only [search_tweets, List.map_cons, List.map_nil, List.cons_append,
      List.nil_append] at h ⊢
    rw [h]
    have h2 := run_pages_no_hit none limit_hit_none [p] 0 []
    simp only [List.map_cons, List.map_nil] at h2
    rw [h2]
    simp [all_records]

/-- C2: with a positive result-count limit `n` and pages carrying more than
`n` posts in total, the driver returns exactly the first `n` records in
page/post source order. -/
theorem C2_limit_respected_exactly (pgs : List RawPage) (n : Nat) (h1 : 0 < n)
    (h2 : n < total_posts pgs) :
    search_tweets (pgs.map .page) (some (n : Int)) = (all_records pgs).take n ∧
    (search_tweets (pgs.map .page) (some (n : Int))).length = n := by
  have h := run_pages_limited n h1 pgs 0 h1 []
  constructor
  · simpa [search_tweets] using h
  · rw [search_tweets, h]
    rw [List.nil_append, List.length_take, Nat.sub_zero, all_records_length]
    omega

/-- Witness for C2 at a concrete input: two pages of two posts each with
limit 3 return exactly 3 records. -/
theorem C2_limit_respected_exactly_witness :
    0 < 3 ∧ 3 < total_posts [samplePage2, samplePage2] ∧
      (search_tweets ([samplePage2, samplePage2].map .page) (some ((3 : Nat) : Int)) =
          (all_records [samplePage2, samplePage2]).take 3 ∧
        (search_tweets ([samplePage2, samplePage2].map .page)
            (some ((3 : Nat) : Int))).length = 3) :=
  ⟨by decide, by decide,
    C2_limit_respected_exactly [samplePage2, samplePage2] 3 (by decide) (by decide)⟩

/-- C3 counterexample: the same post id appearing on two pages is emitted
twice, so the returned record stream is not deduplicated. -/
theorem C3_no_dedup_counterexample :
    (search_tweets [.page samplePage, .page samplePage] none).map TweetRecord.id =
        ["1", "1"] ∧
    ¬ ((search_tweets [.page samplePage, .page samplePage] none).map
        TweetRecord.id).Nodup := by
  constructor
  · rfl
  · decide

/-- C3 amended: the driver performs no deduplication at all — on an
error-free unlimited run the output ids are exactly the concatenation of the
pages' post ids, duplicates included, in page/post source order. -/
theorem C3_ids_are_page_concatenation (pgs : List RawPage) :
    (search_tweets (pgs.map .page) none).map TweetRecord.id =
      (pgs.map (fun p => (p.data.getD []).map RawTweet.id)).flatten := by
  rw [search_tweets, run_pages_no_hit none limit_hit_none pgs 0 [], List.nil_append]
  simp [all_records, List.map_flatten, page_records, List.map_map, Function.comp_def,
    normalize_tweet_id]

/-- C10: a limit of `None` or `0` is falsy in the driver's limit test, so no
truncation happens — every record of every available page is returned. -/
theorem C10_none_or_zero_limit_means_no_limit (pgs : List RawPage) :
    search_tweets (pgs.map .page) none = all_records pgs ∧
    search_tweets (pgs.map .page) (some 0) = all_records pgs := by
  constructor
  · rw [search_tweets, run_pages_no_hit none limit_hit_none pgs 0 [], List.nil_append]
  · rw [search_tweets, run_pages_no_hit (some 0) limit_hit_zero pgs 0 [], List.nil_append]

/-! ### Claim theorems: query builder and time window -/

/-- C4: any since date maps to the start-of-day instant; an until date
different from the current UTC calendar date maps to the final instant of
that day; an until date equal to the current UTC calendar date maps to an
instant 20 seconds before now, hence strictly before the instant of
normalization. -/
theorem C4_time_window_boundaries :
    (∀ d : String, compute_start_time (some d) = some (d ++ "T00:00:00Z")) ∧
    compute_start_time (some "2024-01-01") = some "2024-01-01T00:00:00Z" ∧
    (∀ (u : String) (now : NowClock), u ≠ now.ymd →
        compute_end_time (some u) now = .endOfDay (u ++ "T23:59:59Z")) ∧
    (∀ (u : String) (now : NowClock), u = now.ymd →
        compute_end_time (some u) now = .clamped (now.epochSec - 20) ∧
          now.epochSec - 20 < now.epochSec) := by
  refine ⟨fun d => rfl, rfl, ?_, ?_⟩
  · intro u now h
    simp [compute_end_time, h, ymd_to_rfc3339]
  · intro u now h
    refine ⟨by simp [compute_end_time, h], by omega⟩

/-- Witness for C4 at concrete inputs: a past until date against a later
clock, and an until date equal to the clock's own calendar date. -/
theorem C4_time_window_boundaries_witness :
    ("2024-01-01" ≠ (NowClock.mk "2026-10-12" 1792982845).ymd ∧
      compute_end_time (some "2024-01-01") (NowClock.mk "2026-10-12" 1792982845) =
        .endOfDay "2024-01-01T23:59:59Z") ∧
    ("2026-10-12" = (NowClock.mk "2026-10-12" 1792982845).ymd ∧
      compute_end_time (some "2026-10-12") (NowClock.mk "2026-10-12" 1792982845) =
        .clamped ((1792982845 : Int) - 20) ∧
      (1792982845 : Int) - 20 < 1792982845) :=
  ⟨⟨by decide, C4_time_window_boundaries.2.2.1 "2024-01-01" _ (by decide)⟩,
    ⟨rfl, C4_time_window_boundaries.2.2.2 "2026-10-12" _ rfl⟩⟩

/-- C5: the query builder produces the wildcard for no terms and no
language, an OR-group for terms, an appended language clause, and never the
empty string on an empty term list. -/
theorem C5_build_query_cases :
    build_query [] none = "*" ∧
    build_query ["#A", "#B"] none = "(#A OR #B)" ∧
    build_query ["#A"] (some "es") = "(#A) lang:es" ∧
    ∀ lang : Option String, 0 < (build_query [] lang).length := by
  refine ⟨rfl, rfl, rfl, ?_⟩
  intro lang
  cases lang with
  | none => decide
  | some l =>
      by_cases hl : l = ""
      · subst hl; decide
      · have h1 : build_query [] (some l) = String.intercalate " " ["lang:" ++ l] := by
          simp [build_query, hl]
        have h2 : String.intercalate " " ["lang:" ++ l] = "lang:" ++ l := rfl
        rw [h1, h2, String.length_append]
        have h3 : ("lang:" : String).length = 5 := rfl
        omega

/-! ### Claim theorems: record normalizer -/

/-- C8: each reference flag is true exactly when a referenced-tweet relation
of the corresponding type is present, independently of the others; a post
with both a quoted and a replied-to relation gets both flags. -/
theorem C8_reference_flags_independent :
    (∀ (t : RawTweet) (u : List (String × UserInfo)) (r : List (String × IncludedTweet)),
        ((normalize_tweet t u r).is_retweet = true ↔
          ∃ rel ∈ t.referenced_tweets.getD [], rel.rtype = some "retweeted") ∧
        ((normalize_tweet t u r).is_quote = true ↔
          ∃ rel ∈ t.referenced_tweets.getD [], rel.rtype = some "quoted") ∧
        ((normalize_tweet t u r).is_reply = true ↔
          ∃ rel ∈ t.referenced_tweets.getD [], rel.rtype = some "replied_to")) ∧
    ((normalize_tweet quoteReplyPost [] []).is_quote = true ∧
      (normalize_tweet quoteReplyPost [] []).is_reply = true ∧
      (normalize_tweet quoteReplyPost [] []).is_retweet = false) := by
  constructor
  · intro t u r
    refine ⟨?_, ?_, ?_⟩ <;> simp [normalize_tweet, List.any_eq_true]
  · refine ⟨by decide, by decide, by decide⟩

/-- C9: the four engagement counters default to 0 when the metrics block or
the individual field is absent, and are never negative. -/
theorem C9_engagement_counters_defaults :
    (∀ (t : RawTweet) (u : List (String × UserInfo)) (r : List (String × IncludedTweet)),
        (normalize_tweet { t with public_metrics := none } u r).like_count = 0 ∧
        (normalize_tweet { t with public_metrics := none } u r).retweet_count = 0 ∧
        (normalize_tweet { t with public_metrics := none } u r).reply_count = 0 ∧
        (normalize_tweet { t with public_metrics := none } u r).quote_count = 0) ∧
    (∀ (t : RawTweet) (u : List (String × UserInfo)) (r : List (String × IncludedTweet))
        (m : PublicMetrics),
        (normalize_tweet { t with public_metrics := some { m with like_count := none } }
            u r).like_count = 0 ∧
        (normalize_tweet { t with public_metrics := some { m with retweet_count := none } }
            u r).retweet_count = 0 ∧
        (normalize_tweet { t with public_metrics := some { m with reply_count := none } }
            u r).reply_count = 0 ∧
        (normalize_tweet { t with public_metrics := some { m with quote_count := none } }
            u r).quote_count = 0) ∧
    (∀ (t : RawTweet) (u : List (String × UserInfo)) (r : List (String × IncludedTweet)),
        (0 : Int) ≤ (normalize_tweet t u r).like_count ∧
        (0 : Int) ≤ (normalize_tweet t u r).retweet_count ∧
        (0 : Int) ≤ (normalize_tweet t u r).reply_count ∧
        (0 : Int) ≤ (normalize_tweet t u r).quote_count) := by
  refine ⟨?_, ?_, ?_⟩
  · intro t u r
    exact ⟨rfl, rfl, rfl, rfl⟩
  · intro t u r m
    exact ⟨rfl, rfl, rfl, rfl⟩
  · intro t u r
    exact ⟨Int.natCast_nonneg _, Int.natCast_nonneg _, Int.natCast_nonneg _,
      Int.natCast_nonneg _⟩

/-! ### Lemmas about the text-cleanup pipeline -/

theorem collapse_runs_not_mem (c r : Char) (hr : r ≠ c) :
    ∀ l : List Char, c ∉ collapse_runs c r l := by
  intro l
  induction l with
  | nil => simp [collapse_runs]
  | cons x t ih =>
      cases t with
      | nil =>
          by_cases hx : x = c
          · simp only [collapse_runs, if_pos hx, List.mem_singleton]
            exact Ne.symm hr
          · simp only [collapse_runs, if_neg hx, List.mem_singleton]
            exact fun h => hx h.symm
      | cons y ys =>
          by_cases hxy : x = c ∧ y = c
          · simpa [collapse_runs, hxy] using ih
          · by_cases hx : x = c
            · simp only [collapse_runs, if_neg hxy, if_pos hx, List.mem_cons]
              rintro (h | h)
              · exact hr (Eq.symm h)
              · exact ih h
            · simp only [collapse_runs, if_neg hxy, if_neg hx, List.mem_cons]
              rintro (h | h)
              · exact hx (Eq.symm h)
              · exact ih h

theorem collapse_runs_mem (c r : Char) :
    ∀ l a, a ∈ collapse_runs c r l → a = r ∨ a ∈ l := by
  intro l
  induction l with
  | nil => intro a h; simp [collapse_runs] at h
  | cons x t ih =>
      cases t with
      | nil =>
          intro a h
          by_cases hx : x = c <;> simp [collapse_runs, hx] at h <;> simp [h]
      | cons y ys =>
          intro a h
          by_cases hxy : x = c ∧ y = c
          · rcases ih a (by simpa [collapse_runs, hxy] using h) with h1 | h1
            · exact Or.inl h1
            · exact Or.inr (List.mem_cons_of_mem x h1)
          · simp only [collapse_runs, if_neg hxy, List.mem_cons] at h
            rcases h with h | h
            · by_cases hx : x = c
              · simp [hx] at h; exact Or.inl h
              · simp [hx] at h; subst h; simp
            · rcases ih a h with h1 | h1
              · exact Or.inl h1
              · simp [List.mem_cons] at h1 ⊢
                tauto

theorem collapse_runs_id (c r : Char) :
    ∀ l : List Char, c ∉ l → collapse_runs c r l = l := by
  intro l
  induction l with
  | nil => intro _; rfl
  | cons x t ih =>
      cases t with
      | nil =>
          intro h
          simp only [List.mem_singleton] at h
          have hx : ¬ x = c := fun hx => h hx.symm
          simp [collapse_runs, hx]
      | cons y ys =>
          intro h
          simp only [List.mem_cons, not_or] at h
          have hx : ¬ x = c := fun hx => h.1 hx.symm
          simp only [collapse_runs, if_neg (by tauto : ¬ (x = c ∧ y = c)), if_neg hx]
          congr 1
          exact ih (by simp [List.mem_cons]; tauto)

theorem collapse_runs_head (c : Char) :
    ∀ (ys : List Char) (y : Char), ∃ t : List Char,
      collapse_runs c c (y :: ys) = (if y = c then c else y) :: t := by
  intro ys
  induction ys with
  | nil => intro y; exact ⟨[], rfl⟩
  | cons z zs ih =>
      intro y
      by_cases h : y = c ∧ z = c
      · obtain ⟨t, ht⟩ := ih z
        refine ⟨t, ?_⟩
        rw [collapse_runs, if_pos h, ht, if_pos h.2, if_pos h.1]
      · exact ⟨collapse_runs c c (z :: zs), by rw [collapse_runs, if_neg h]⟩

theorem no_double_collapse (c : Char) :
    ∀ l : List Char, no_double c (collapse_runs c c l) = true := by
  intro l
  induction l with
  | nil => rfl
  | cons x t ih =>
      cases t with
      | nil => by_cases hx : x = c <;> simp [collapse_runs, hx, no_double]
      | cons y ys =>
          by_cases hxy : x = c ∧ y = c
          · simpa [collapse_runs, hxy] using ih
          · obtain ⟨t2, ht2⟩ := collapse_runs_head c ys y
            rw [collapse_runs, if_neg hxy, ht2]
            rw [ht2] at ih
            simp only [no_double, Bool.and_eq_true]
            refine ⟨?_, ih⟩
            by_cases hx : x = c
            · have hy : ¬ y = c := fun hy => hxy ⟨hx, hy⟩
              simp [hx, hy]
            · simp [hx]

theorem collapse_runs_self_id (c : Char) :
    ∀ l : List Char, no_double c l = true → collapse_runs c c l = l := by
  intro l
  induction l with
  | nil => intro _; rfl
  | cons x t ih =>
      cases t with
      | nil =>
          intro _
          by_cases hx : x = c <;> simp [collapse_runs, hx]
      | cons y ys =>
          intro h
          simp only [no_double, Bool.and_eq_true] at h
          have hxy : ¬ (x = c ∧ y = c) := by
            intro ⟨h1, h2⟩
            simp [h1, h2] at h
          rw [collapse_runs, if_neg hxy, ih h.2]
          by_cases hx : x = c <;> simp [hx]

theorem no_double_iff_chain (c : Char) :
    ∀ l : List Char, no_double c l = true ↔
      l.Chain' (fun a b => ¬ (a = c ∧ b = c)) := by
  intro l
  induction l with
  | nil => simp [no_double]
  | cons x t ih =>
      cases t with
      | nil => simp [no_double]
      | cons y ys =>
          rw [List.chain'_cons, ← ih]
          simp [no_double, Bool.and_eq_true, and_comm]
          tauto

theorem no_double_suffix (c : Char) (a b : List Char)
    (h : no_double c (a ++ b) = true) : no_double c b = true := by
  rw [no_double_iff_chain] at h ⊢
  exact (List.chain'_append.mp h).2.1

theorem no_double_reverse (c : Char) (l : List Char)
    (h : no_double c l = true) : no_double c l.reverse = true := by
  rw [no_double_iff_chain] at h ⊢
  rw [List.chain'_reverse]
  exact h.imp (fun a b hab hba => hab ⟨hba.2, hba.1⟩)

theorem head?_dropWhile_false (p : Char → Bool) :
    ∀ (l : List Char) (x : Char), (l.dropWhile p).head? = some x → p x = false := by
  intro l
  induction l with
  | nil => intro x h; simp [List.dropWhile] at h
  | cons a t ih =>
      intro x h
      rw [List.dropWhile_cons] at h
      by_cases hp : p a
      · exact ih x (by simpa [hp] using h)
      · simp [hp] at h
        subst h
        simpa using hp

theorem dropWhile_of_head (p : Char → Bool) (l : List Char)
    (h : ∀ x, l.head? = some x → p x = false) : l.dropWhile p = l := by
  cases l with
  | nil => rfl
  | cons a t =>
      have : p a = false := h a rfl
      simp [List.dropWhile_cons, this]

theorem py_strip_eq_reverse_drop (l : List Char) :
    py_strip l = ((l.dropWhile py_ws).reverse.dropWhile py_ws).reverse := rfl

theorem py_strip_as_prefix (l : List Char) :
    ∃ u : List Char, py_strip l = (py_strip l) ∧
      (l.dropWhile py_ws) = py_strip l ++ u := by
  obtain ⟨u, hu⟩ := List.dropWhile_suffix (l := (l.dropWhile py_ws).reverse) py_ws
  refine ⟨u.reverse, rfl, ?_⟩
  have := congrArg List.reverse hu
  simpa [py_strip] using this.symm

theorem py_strip_head (l : List Char) (x : Char)
    (h : (py_strip l).head? = some x) : py_ws x = false := by
  obtain ⟨u, -, hu⟩ := py_strip_as_prefix l
  have hhead : (l.dropWhile py_ws).head? = some x := by
    rcases hps : py_strip l with - | ⟨y, t⟩
    · rw [hps] at h; simp at h
    · rw [hps] at h hu
      simp at h
      subst h
      simp [hu]
  exact head?_dropWhile_false py_ws l x hhead

theorem py_strip_last (l : List Char) (x : Char)
    (h : (py_strip l).getLast? = some x) : py_ws x = false := by
  rw [py_strip_eq_reverse_drop, List.getLast?_reverse] at h
  exact head?_dropWhile_false py_ws (l.dropWhile py_ws).reverse x h

theorem py_strip_id (l : List Char)
    (h1 : ∀ x, l.head? = some x → py_ws x = false)
    (h2 : ∀ x, l.getLast? = some x → py_ws x = false) : py_strip l = l := by
  rw [py_strip_eq_reverse_drop, dropWhile_of_head py_ws l h1,
    dropWhile_of_head py_ws l.reverse (fun x hx => h2 x (by rwa [List.head?_reverse] at hx)),
    List.reverse_reverse]

theorem py_strip_subset (l : List Char) : ∀ a, a ∈ py_strip l → a ∈ l := by
  intro a ha
  rw [py_strip_eq_reverse_drop, List.mem_reverse] at ha
  have h1 := (List.dropWhile_suffix (l := (l.dropWhile py_ws).reverse) py_ws).subset ha
  rw [List.mem_reverse] at h1
  exact (List.dropWhile_suffix (l := l) py_ws).subset h1

theorem no_double_py_strip (c : Char) (l : List Char)
    (h : no_double c l = true) : no_double c (py_strip l) = true := by
  obtain ⟨u1, hu1⟩ := List.dropWhile_suffix (l := l) py_ws
  have hd1 : no_double c (l.dropWhile py_ws) = true :=
    no_double_suffix c u1 _ (by rw [hu1]; exact h)
  have hd2 : no_double c (l.dropWhile py_ws).reverse = true := no_double_reverse c _ hd1
  obtain ⟨u2, hu2⟩ := List.dropWhile_suffix (l := (l.dropWhile py_ws).reverse) py_ws
  have hd3 : no_double c ((l.dropWhile py_ws).reverse.dropWhile py_ws) = true :=
    no_double_suffix c u2 _ (by rw [hu2]; exact hd2)
  rw [py_strip_eq_reverse_drop]
  exact no_double_reverse c _ hd3

theorem clean_chars_no_newline (l : List Char) : '\n' ∉ clean_chars l := by
  intro hmem
  have h1 : '\n' ∈ collapse_runs ' ' ' ' (collapse_runs '\n' ' ' l) :=
    py_strip_subset _ _ hmem
  rcases collapse_runs_mem ' ' ' ' _ _ h1 with h | h
  · exact absurd h (by decide)
  · exact collapse_runs_not_mem '\n' ' ' (by decide) l h

theorem clean_chars_no_double (l : List Char) :
    no_double ' ' (clean_chars l) = true :=
  no_double_py_strip ' ' _ (no_double_collapse ' ' _)

theorem clean_chars_head (l : List Char) (x : Char)
    (h : (clean_chars l).head? = some x) : py_ws x = false :=
  py_strip_head _ _ h

theorem clean_chars_last (l : List Char) (x : Char)
    (h : (clean_chars l).getLast? = some x) : py_ws x = false :=
  py_strip_last _ _ h

theorem clean_chars_idem (l : List Char) :
    clean_chars (clean_chars l) = clean_chars l := by
  have h1 : collapse_runs '\n' ' ' (clean_chars l) = clean_chars l :=
    collapse_runs_id '\n' ' ' _ (clean_chars_no_newline l)
  have h2 : collapse_runs ' ' ' ' (clean_chars l) = clean_chars l :=
    collapse_runs_self_id ' ' _ (clean_chars_no_double l)
  have h3 : py_strip (clean_chars l) = clean_chars l :=
    py_strip_id _ (fun x hx => clean_chars_head l x hx)
      (fun x hx => clean_chars_last l x hx)
  show py_strip (collapse_runs ' ' ' ' (collapse_runs '\n' ' ' (clean_chars l))) =
    clean_chars l
  rw [h1, h2, h3]

/-! ### Claim theorems: text cleanup -/

/-- C6: the flat-output text cleanup maps the example `"a\n\nb   c"` to
`"a b c"`, passes absent and empty text through unchanged, and on every
input leaves no newline characters, no two adjacent spaces, and no leading
or trailing whitespace. -/
theorem C6_clean_text_collapses_and_trims :
    clean_text_for_csv (some "a\n\nb   c") = some "a b c" ∧
    clean_text_for_csv none = none ∧
    clean_text_for_csv (some "") = some "" ∧
    ∀ s : String,
      (clean_chars s.data).contains '\n' = false ∧
      no_double ' ' (clean_chars s.data) = true ∧
      (clean_chars s.data).head?.all (fun x => ! py_ws x) = true ∧
      (clean_chars s.data).getLast?.all (fun x => ! py_ws x) = true := by
  refine ⟨by decide, rfl, rfl, ?_⟩
  intro s
  refine ⟨?_, clean_chars_no_double s.data, ?_, ?_⟩
  · have hnm := clean_chars_no_newline s.data
    rw [Bool.eq_false_iff]
    exact fun h => hnm (List.elem_iff.mp h)
  · rcases hh : (clean_chars s.data).head? with - | x
    · rfl
    · simpa using clean_chars_head s.data x hh
  · rcases hh : (clean_chars s.data).getLast? with - | x
    · rfl
    · simpa using clean_chars_last s.data x hh

/-- C7: the text cleanup is idempotent — cleaning already-clean text
returns it unchanged. -/
theorem C7_clean_text_idempotent (s : Option String) :
    clean_text_for_csv (clean_text_for_csv s) = clean_text_for_csv s := by
  cases s with
  | none => rfl
  | some str =>
      by_cases h0 : str = ""
      · subst h0
        rfl
      · have hsome : clean_text_for_csv (some str) =
            some (String.mk (clean_chars str.data)) := by
          simp [clean_text_for_csv, h0]
        rw [hsome]
        by_cases h1 : String.mk (clean_chars str.data) = ""
        · rw [h1]
          rfl
        · have h2 : clean_text_for_csv (some (String.mk (clean_chars str.data))) =
              some (String.mk (clean_chars (String.mk (clean_chars str.data)).data)) := by
            simp [clean_text_for_csv, h1]
          rw [h2]
          have h3 : (String.mk (clean_chars str.data)).data = clean_chars str.data := rfl
          rw [h3, clean_chars_idem]

end HealthTweets
